import Mathlib

/-!
Shallow embedding of the bequest wealth toy model:
`wealth_model/constants.py`, `wealth_model/mpc.py` and
`wealth_model/simulation.py`.

Python/numpy floats are modelled as `Option ℝ`: `some x` is the finite
value `x` and `none` stands for a non-finite result (`inf` or `NaN`).
numpy float arithmetic does not raise exceptions; the sources of `none`
in this code are division by zero and `np.power` applied to a negative
base with a non-integer exponent (NaN) or to a zero base with a negative
exponent (inf).  Quantities that are finite by construction (constants,
random draws, rank counts) are modelled directly as reals.  Comparisons
against a non-finite value are modelled as false, which is the numpy
behaviour for NaN.  Random draws (`pareto.rvs`, `np.random.lognormal`,
`np.random.normal`, `np.random.randint`, `np.random.random`) are passed
to the embedded functions as explicit arguments.
-/

open Real

/-- Embedded float: `some x` is finite, `none` is `inf` or `NaN`. -/
abbrev F : Type := Option ℝ

/- ---------------------------------------------------------------------
`wealth_model/constants.py`
--------------------------------------------------------------------- -/

/-- constants.py: BASE_INCOME = 50000 -/
def BASE_INCOME : ℝ := 50000

/-- constants.py: INCOME_GROWTH_RATE = 0.02 -/
def INCOME_GROWTH_RATE : ℝ := 0.02

/-- constants.py: INCOME_VOLATILITY = 0.3 (std. dev. of the log-normal labor shock) -/
def INCOME_VOLATILITY : ℝ := 0.3

/-- constants.py: PARENT_WEALTH_EFFECT = 0.2 -/
def PARENT_WEALTH_EFFECT : ℝ := 0.2

/-- constants.py: RETIREMENT_INCOME_RATIO = 0.4 -/
def RETIREMENT_INCOME_RATIO : ℝ := 0.4

/-- constants.py: RETURN_MEAN = 0.04 -/
def RETURN_MEAN : ℝ := 0.04

/-- constants.py: RETURN_VOLATILITY = 0.05 -/
def RETURN_VOLATILITY : ℝ := 0.05

/-- constants.py: MPC_BASE = 0.6 -/
def MPC_BASE : ℝ := 0.6

/-- constants.py: MPC_REFERENCE_INCOME = 35000 -/
def MPC_REFERENCE_INCOME : ℝ := 35000

/-- constants.py: MPC_ELASTICITY = -0.7 -/
def MPC_ELASTICITY : ℝ := -0.7

/-- constants.py: BORROWING_LIMIT_WEALTH_SHARE = 0.1 -/
def BORROWING_LIMIT_WEALTH_SHARE : ℝ := 0.1

/-- constants.py: CHILD_START_AGE = 25 -/
def CHILD_START_AGE : ℤ := 25

/-- constants.py: PARENT_START_AGE = 50 -/
def PARENT_START_AGE : ℤ := 50

/-- constants.py: RETIREMENT_AGE = 65 -/
def RETIREMENT_AGE : ℤ := 65

/-- constants.py: BEQUEST_AGE_MIN = 30 -/
def BEQUEST_AGE_MIN : ℤ := 30

/-- constants.py: BEQUEST_AGE_MAX = 60 -/
def BEQUEST_AGE_MAX : ℤ := 60

/-- constants.py: NO_BEQUEST_PROB = 0.4 -/
def NO_BEQUEST_PROB : ℝ := 0.4

/-- constants.py: PARETO_SHAPE = 2 -/
def PARETO_SHAPE : ℝ := 2

/-- constants.py: WEALTH_SCALE = 20 -/
def WEALTH_SCALE : ℝ := 20

/- ---------------------------------------------------------------------
Float model: the operations of numpy float arithmetic the code uses.
--------------------------------------------------------------------- -/

namespace F

/-- Float addition; finite exactly when both operands are. -/
def add (x y : F) : F := x.bind fun a => y.map fun b => a + b

/-- Float subtraction; finite exactly when both operands are. -/
def sub (x y : F) : F := x.bind fun a => y.map fun b => a - b

/-- Float multiplication; finite exactly when both operands are. -/
def mul (x y : F) : F := x.bind fun a => y.map fun b => a * b

/-- np.minimum: propagates a non-finite operand (NaN behaviour). -/
def minimum (x y : F) : F := x.bind fun a => y.map fun b => min a b

/-- Strict float comparison; false when either side is non-finite
(numpy: any comparison with NaN is false). -/
def lt (x y : F) : Prop := ∃ a b, x = some a ∧ y = some b ∧ a < b

/-- Non-strict float comparison; false when either side is non-finite. -/
def le (x y : F) : Prop := ∃ a b, x = some a ∧ y = some b ∧ a ≤ b

/-- The numpy test `w > 0`; false when `w` is non-finite (NaN). -/
def isPos (x : F) : Prop := ∃ a, x = some a ∧ 0 < a

theorem not_lt_self (x : F) : ¬ F.lt x x := by
  rintro ⟨a, b, ha, hb, hab⟩
  rw [ha, Option.some_inj] at hb
  subst hb
  exact absurd hab (irrefl a)

end F

/- ---------------------------------------------------------------------
`wealth_model/mpc.py`
--------------------------------------------------------------------- -/

/-- A float is an integer; `np.power` on a negative base returns NaN
exactly when the exponent is not an integer. -/
def IsIntR (y : ℝ) : Prop := ∃ n : ℤ, y = (n : ℝ)

open Classical in
/-- Scalar `np.power x y`: NaN (`none`) for a negative base with a
non-integer exponent; `inf` (`none`) for a zero base with a negative
exponent; otherwise the real power `x ^ y` (`Real.rpow`, which agrees
with the float result also on a negative base with an integer
exponent). -/
noncomputable def npPower (x y : ℝ) : F :=
  if x < 0 then (if IsIntR y then some (x ^ y) else none)
  else if x = 0 ∧ y < 0 then none
  else some (x ^ y)

/-- mpc.py: `calculate_mpc`.  The scaled income is floored at
`1e-6 > 0`, so the power has a positive base and the result is always a
finite real. -/
noncomputable def calculate_mpc
    (income base_mpc reference_income elasticity : ℝ) : ℝ :=
  let scaled_income := max (income / reference_income) (1e-6 : ℝ)
  base_mpc * scaled_income ^ elasticity

/-- mpc.py: `calculate_consumption`.  No floor is applied to the scaled
income.  numpy evaluates `np.power(scaled_income, alpha)` first and then
divides by `alpha`; when `alpha = 0` the division is a float division by
zero (`inf` or NaN, hence `none`), and a negative scaled income with a
non-integer `alpha` makes the power itself NaN. -/
noncomputable def calculate_consumption
    (income base_mpc reference_income elasticity : ℝ) : F :=
  let alpha := elasticity + 1
  let scaled_income := income / reference_income
  (npPower scaled_income alpha).bind fun p =>
    if alpha = 0 then none
    else some (base_mpc * reference_income * p / alpha)

/- ---------------------------------------------------------------------
`wealth_model/simulation.py`: the `Person` class.
--------------------------------------------------------------------- -/

/-- simulation.py: class `Person`.  The four histories are Python lists,
appended to once per simulated year. -/
structure Person where
  age : ℤ
  wealth : F
  parent_wealth_rank : Option ℝ
  base_labor_income : ℝ
  wealth_history : List F
  labor_income_history : List F
  capital_income_history : List F
  consumption_history : List F

/-- simulation.py: `Person.__init__`. -/
def Person.init (age : ℤ) (initial_wealth : ℝ)
    (parent_wealth_rank : Option ℝ) : Person :=
  { age := age
    wealth := some initial_wealth
    parent_wealth_rank := parent_wealth_rank
    base_labor_income :=
      match parent_wealth_rank with
      | some r => BASE_INCOME * (1 + PARENT_WEALTH_EFFECT * r)
      | none => BASE_INCOME
    wealth_history := [some initial_wealth]
    labor_income_history := []
    capital_income_history := []
    consumption_history := [] }

/-- simulation.py: `Person.get_labor_income`; `labor_noise` is the draw
`np.random.lognormal(0, INCOME_VOLATILITY)` of this person-year (a
positive finite real, so the result is a finite real). -/
noncomputable def Person.get_labor_income (p : Person) (years_worked : ℕ)
    (labor_noise : ℝ) : ℝ :=
  if RETIREMENT_AGE ≤ p.age then p.base_labor_income * RETIREMENT_INCOME_RATIO
  else p.base_labor_income * (1 + INCOME_GROWTH_RATE) ^ years_worked * labor_noise

/-- simulation.py: `Person.get_capital_income`; `return_draw` is the draw
`np.random.normal(RETURN_MEAN, RETURN_VOLATILITY)` of this person-year. -/
def Person.get_capital_income (p : Person) (return_draw : ℝ) : F :=
  F.mul p.wealth (some ((1 + return_draw) - 1))

/-- The `mpc_params` dictionary of `simulate_year` / `run_simulation`. -/
structure MpcParams where
  base_mpc : ℝ
  reference_income : ℝ
  elasticity : ℝ

/-- The default parameters substituted when `mpc_params` is `None`. -/
def defaultMpcParams : MpcParams :=
  { base_mpc := MPC_BASE
    reference_income := MPC_REFERENCE_INCOME
    elasticity := MPC_ELASTICITY }

/-- `calculate_consumption` applied to a possibly non-finite total
income: a NaN income propagates through `np.power` and the following
arithmetic to a NaN result. -/
noncomputable def calculate_consumptionF (income : F) (params : MpcParams) : F :=
  income.bind fun x =>
    calculate_consumption x params.base_mpc params.reference_income params.elasticity

open Classical in
/-- simulation.py: `Person.simulate_year`, with the two random draws of
the year passed explicitly.  `np.where(self.wealth > 0, ...)` on a scalar
gives `0` when the wealth is non-finite (NaN compares false), and
`np.minimum` propagates a NaN operand. -/
noncomputable def Person.simulate_year (p : Person) (years_worked : ℕ)
    (params : MpcParams) (labor_noise return_draw : ℝ) : Person :=
  let labor_income := p.get_labor_income years_worked labor_noise
  let capital_income := p.get_capital_income return_draw
  let total_income := F.add (some labor_income) capital_income
  let raw_consumption := calculate_consumptionF total_income params
  let borrowing_available : F :=
    if F.isPos p.wealth then F.mul p.wealth (some BORROWING_LIMIT_WEALTH_SHARE)
    else some 0
  let max_consumption := F.add total_income borrowing_available
  let consumption := F.minimum raw_consumption max_consumption
  let new_wealth := F.add p.wealth (F.sub total_income consumption)
  { p with
    age := p.age + 1
    wealth := new_wealth
    wealth_history := p.wealth_history ++ [new_wealth]
    labor_income_history := p.labor_income_history ++ [some labor_income]
    capital_income_history := p.capital_income_history ++ [capital_income]
    consumption_history := p.consumption_history ++ [consumption] }

/- ---------------------------------------------------------------------
scipy `rankdata` (method "average").
--------------------------------------------------------------------- -/

/-- scipy `rankdata`, method "average", expressed value-wise: the rank of
an entry is the number of entries strictly below it, plus half of (the
number of entries tied with it, plus one).  Tied entries get the same
average rank, so the rank of `xs[i]` depends only on the value `xs[i]`
and the multiset of entries of `xs`. -/
noncomputable def rankAvg (xs : List ℝ) (x : ℝ) : ℝ :=
  ((xs.countP fun a => decide (a < x)) : ℝ) +
    (((xs.countP fun a => decide (a = x)) : ℝ) + 1) / 2

/-- scipy `rankdata` on a float array with finite entries. -/
noncomputable def rankdata (xs : List ℝ) : List ℝ := xs.map (rankAvg xs)

open Classical in
/-- scipy `rankdata` on an array with possibly non-finite entries,
value-wise.  Non-finite entries compare false under `F.lt` and are
treated as tied with each other; every rank lies in `[1, n]`, which is
all that is used about the ranks of non-finite data. -/
noncomputable def rankAvgF (xs : List F) (x : F) : ℝ :=
  ((xs.countP fun a => decide (F.lt a x)) : ℝ) +
    (((xs.countP fun a => decide (a = x)) : ℝ) + 1) / 2

/-- scipy `rankdata` on a possibly non-finite float array. -/
noncomputable def rankdataF (xs : List F) : List ℝ := xs.map (rankAvgF xs)

/- ---------------------------------------------------------------------
`wealth_model/simulation.py`: `run_simulation`.
--------------------------------------------------------------------- -/

/-- simulation.py, `run_simulation` lines 95-98: the bequest amounts
`np.where(parent_ranks >= NO_BEQUEST_PROB, parent_wealth * bequest_shares, 0)`
with `parent_ranks = rankdata(parent_wealth) / len(parent_wealth)`. -/
noncomputable def bequests_of (parent_wealth bequest_shares : List ℝ) : List ℝ :=
  let n := parent_wealth.length
  let parent_ranks := (rankdata parent_wealth).map fun r => r / (n : ℝ)
  List.zipWith (fun pr s => if NO_BEQUEST_PROB ≤ pr.2 then pr.1 * s else 0)
    (parent_wealth.zip parent_ranks) bequest_shares

/-- simulation.py, `run_simulation` lines 111-116: `bequest_ranks` starts
as zeros; when somebody has a positive bequest, the positions with a
positive bequest are overwritten with
`0.4 + 0.6 * rankdata(bequests[positive]) / n_positive`, written
value-wise (the average rank of an entry depends only on its value and
the multiset of positive bequests). -/
noncomputable def computeBequestRanks (bequests : List ℝ) : List ℝ :=
  let positive := bequests.filter fun b => decide (0 < b)
  let n_positive := positive.length
  if 0 < n_positive then
    bequests.map fun b =>
      if 0 < b then 0.4 + 0.6 * (rankAvg positive b / (n_positive : ℝ)) else 0
  else bequests.map fun _ => 0

/-- simulation.py, `run_simulation` line 119:
`wealth_ranks = (rankdata(final_wealth) - 1) / (n_people - 1)`.  For
`n_people = 1` the divisor is zero and the float division gives
`0 / 0 = NaN`. -/
noncomputable def computeWealthRanks (final_wealth : List F) : List F :=
  let n := final_wealth.length
  (rankdataF final_wealth).map fun r =>
    if (n : ℝ) - 1 = 0 then none else some ((r - 1) / ((n : ℝ) - 1))

/-- Indexed map starting at index `k`: models
`for i, child in enumerate(children)`. -/
def mapIdxFrom {α β : Type} (f : ℕ → α → β) : ℕ → List α → List β
  | _, [] => []
  | k, a :: as => f k a :: mapIdxFrom f (k + 1) as

/-- simulation.py, `run_simulation` lines 104-106: the in-place bequest
update of a loop year, `child.wealth += bequests[i]` exactly when
`child.age == death_ages[i]`; no history entry is made. -/
def bequestAdj (death_age : ℤ) (bequest : ℝ) (c : Person) : Person :=
  if c.age = death_age then { c with wealth := F.add c.wealth (some bequest) }
  else c

/-- simulation.py, `run_simulation` lines 103-108: one loop year.  Person
`i` first receives the bequest when `child.age == death_ages[i]`, then
simulates the year, with `years_worked = year`. -/
noncomputable def yearStep (death_ages : List ℤ) (bequests : List ℝ)
    (params : MpcParams) (noises : ℕ → ℕ → ℝ × ℝ) (year : ℕ)
    (children : List Person) : List Person :=
  mapIdxFrom
    (fun i child =>
      (bequestAdj (death_ages.getD i 0) (bequests.getD i 0) child).simulate_year
        year params (noises year i).1 (noises year i).2)
    0 children

/-- simulation.py, `run_simulation` lines 101-108: the year loop,
`for year in range(n_years)` applied to the initial population. -/
noncomputable def simulateYears (death_ages : List ℤ) (bequests : List ℝ)
    (params : MpcParams) (noises : ℕ → ℕ → ℝ × ℝ) :
    ℕ → List Person → List Person
  | 0, children => children
  | y + 1, children =>
      yearStep death_ages bequests params noises y
        (simulateYears death_ages bequests params noises y children)

/-- simulation.py, `run_simulation` lines 88-92: the initial population,
one `Person` at `CHILD_START_AGE` with zero wealth for each parent rank
`rankdata(parent_wealth) / len(parent_wealth)`. -/
noncomputable def initialChildren (parent_wealth : List ℝ) : List Person :=
  let n_people := parent_wealth.length
  let parent_ranks := (rankdata parent_wealth).map fun r => r / (n_people : ℝ)
  parent_ranks.map fun parent_rank =>
    Person.init CHILD_START_AGE 0 (some parent_rank)

/-- simulation.py: `run_simulation`, with every random draw passed as an
explicit argument: `parent_wealth` are the Pareto draws (already scaled),
`death_ages` the uniform integer age draws, `bequest_shares` the
uniform(0,1) share draws, and `noises year i` the pair (lognormal labor
shock, normal return draw) of person `i` in loop year `year`.  Returns
`(children, bequest_ranks, wealth_ranks)`; `child.wealth_history[-1]` is
modelled by `getLastD` (every history is non-empty). -/
noncomputable def run_simulation (parent_wealth : List ℝ) (death_ages : List ℤ)
    (bequest_shares : List ℝ) (noises : ℕ → ℕ → ℝ × ℝ) (params : MpcParams) :
    List Person × List ℝ × List F :=
  let children := initialChildren parent_wealth
  let bequests := bequests_of parent_wealth bequest_shares
  let n_years := 60
  let final_children := simulateYears death_ages bequests params noises n_years children
  let bequest_ranks := computeBequestRanks bequests
  let final_wealth := final_children.map fun child => child.wealth_history.getLastD none
  let wealth_ranks := computeWealthRanks final_wealth
  (final_children, bequest_ranks, wealth_ranks)

/- ---------------------------------------------------------------------
`wealth_model/simulation.py`: `calculate_rank_statistics`.
--------------------------------------------------------------------- -/

/-- np.mean of a float array: NaN on an empty array, and a NaN entry
propagates into the sum. -/
noncomputable def npMean (xs : List F) : F :=
  if xs.length = 0 then none
  else (xs.foldr F.add (some 0)).map fun s => s / (xs.length : ℝ)

/-- np.std of a float array: the square root of the mean squared
deviation from the mean. -/
noncomputable def npStd (xs : List F) : F :=
  (npMean xs).bind fun m =>
    (npMean (xs.map fun x => F.mul (F.sub x (some m)) (F.sub x (some m)))).map
      fun v => Real.sqrt v

/-- Membership of a bequest rank in bin `i` of `n_bins`, exactly the mask
`(bequest_ranks >= bins[i]) & (bequest_ranks < bins[i+1])` of
`calculate_rank_statistics`, where `bins = np.linspace(0, 1, n_bins + 1)`
has `bins[i] = i / n_bins`.  A NaN rank satisfies no mask. -/
def binMask (n_bins i : ℕ) (r : F) : Prop :=
  F.le (some ((i : ℝ) / (n_bins : ℝ))) r ∧
    F.lt r (some (((i + 1 : ℕ) : ℝ) / (n_bins : ℝ)))

open Classical in
/-- simulation.py: `calculate_rank_statistics`.  Bin `i` selects the
indices whose bequest rank lies in `[bins[i], bins[i+1])`; an empty bin
records `np.nan` (`none`) for both statistics. -/
noncomputable def calculate_rank_statistics (bequest_ranks wealth_ranks : List F)
    (n_bins : ℕ) : List ℝ × List F × List F :=
  let bins : ℕ → ℝ := fun i => (i : ℝ) / (n_bins : ℝ)
  let bin_centers := (List.range n_bins).map fun i => (bins (i + 1) + bins i) / 2
  let selected : ℕ → List F := fun i =>
    ((bequest_ranks.zip wealth_ranks).filter fun bw =>
      decide (binMask n_bins i bw.1)).map fun bw => bw.2
  let mean_ranks := (List.range n_bins).map fun i =>
    if 0 < (selected i).length then npMean (selected i) else none
  let std_ranks := (List.range n_bins).map fun i =>
    if 0 < (selected i).length then npStd (selected i) else none
  (bin_centers, mean_ranks, std_ranks)

/- ---------------------------------------------------------------------
Helper lemmas.
--------------------------------------------------------------------- -/

theorem countP_disjoint_le {α : Type} (p q : α → Bool) (xs : List α)
    (h : ∀ a, ¬(p a = true ∧ q a = true)) :
    xs.countP p + xs.countP q ≤ xs.length := by
  induction xs with
  | nil => simp
  | cons a l ih =>
    rw [List.countP_cons, List.countP_cons, List.length_cons]
    have hpq := h a
    cases hp : p a <;> cases hq : q a <;> simp [hp, hq] at hpq ⊢ <;> omega

theorem rankAvg_bounds (xs : List ℝ) (x : ℝ) (hx : x ∈ xs) :
    1 ≤ rankAvg xs x ∧ rankAvg xs x ≤ (xs.length : ℝ) := by
  have hEQ : 1 ≤ xs.countP fun a => decide (a = x) := by
    have h0 : 0 < xs.countP fun a => decide (a = x) := by
      rw [List.countP_pos_iff]
      exact ⟨x, hx, by simp⟩
    omega
  have hLE : (xs.countP fun a => decide (a < x)) + (xs.countP fun a => decide (a = x))
      ≤ xs.length := by
    refine countP_disjoint_le _ _ _ ?_
    rintro a ⟨h1, h2⟩
    rw [decide_eq_true_eq] at h1 h2
    subst h2
    exact absurd h1 (irrefl a)
  have hEQ' : (1 : ℝ) ≤ ((xs.countP fun a => decide (a = x) : ℕ) : ℝ) := by
    exact_mod_cast hEQ
  have hLE' : ((xs.countP fun a => decide (a < x) : ℕ) : ℝ)
      + ((xs.countP fun a => decide (a = x) : ℕ) : ℝ) ≤ (xs.length : ℝ) := by
    exact_mod_cast hLE
  have h0' : (0 : ℝ) ≤ ((xs.countP fun a => decide (a < x) : ℕ) : ℝ) :=
    Nat.cast_nonneg _
  rw [rankAvg]
  constructor
  · linarith
  · linarith

open Classical in
theorem rankAvgF_bounds (xs : List F) (x : F) (hx : x ∈ xs) :
    1 ≤ rankAvgF xs x ∧ rankAvgF xs x ≤ (xs.length : ℝ) := by
  have hEQ : 1 ≤ xs.countP fun a => decide (a = x) := by
    have h0 : 0 < xs.countP fun a => decide (a = x) := by
      rw [List.countP_pos_iff]
      exact ⟨x, hx, by simp⟩
    omega
  have hLE : (xs.countP fun a => decide (F.lt a x)) + (xs.countP fun a => decide (a = x))
      ≤ xs.length := by
    refine countP_disjoint_le _ _ _ ?_
    rintro a ⟨h1, h2⟩
    rw [decide_eq_true_eq] at h1 h2
    subst h2
    exact absurd h1 (F.not_lt_self a)
  have hEQ' : (1 : ℝ) ≤ ((xs.countP fun a => decide (a = x) : ℕ) : ℝ) := by
    exact_mod_cast hEQ
  have hLE' : ((xs.countP fun a => decide (F.lt a x) : ℕ) : ℝ)
      + ((xs.countP fun a => decide (a = x) : ℕ) : ℝ) ≤ (xs.length : ℝ) := by
    exact_mod_cast hLE
  have h0' : (0 : ℝ) ≤ ((xs.countP fun a => decide (F.lt a x) : ℕ) : ℝ) :=
    Nat.cast_nonneg _
  rw [rankAvgF]
  constructor
  · linarith
  · linarith

theorem F.not_lt_minimum (x y : F) : ¬ F.lt y (F.minimum x y) := by
  rintro ⟨a, b, ha, hb, hab⟩
  rcases x with _ | a0
  · simp [F.minimum] at hb
  rcases y with _ | b0
  · exact Option.noConfusion ha
  rw [Option.some_inj] at ha
  have hb' : min a0 b0 = b := by
    simpa [F.minimum] using hb
  have h1 : min a0 b0 ≤ b0 := min_le_right a0 b0
  rw [hb'] at h1
  rw [← ha] at hab
  exact absurd (lt_of_lt_of_le hab h1) (irrefl b0)

theorem mapIdxFrom_length {α β : Type} (f : ℕ → α → β) (k : ℕ) (xs : List α) :
    (mapIdxFrom f k xs).length = xs.length := by
  induction xs generalizing k with
  | nil => rfl
  | cons a l ih => simp [mapIdxFrom, ih]

theorem mapIdxFrom_getD {α β : Type} (f : ℕ → α → β) (k : ℕ) (xs : List α)
    (i : ℕ) (h : i < xs.length) (d : β) (e : α) :
    (mapIdxFrom f k xs).getD i d = f (k + i) (xs.getD i e) := by
  induction xs generalizing k i with
  | nil => simp at h
  | cons a l ih =>
    cases i with
    | zero => simp [mapIdxFrom]
    | succ j =>
      have hj : j < l.length := by simpa using h
      simp only [mapIdxFrom, List.getD_cons_succ]
      rw [ih (k + 1) j hj]
      have hk : k + 1 + j = k + (j + 1) := by omega
      rw [hk]

theorem mapIdxFrom_mem {α β : Type} {f : ℕ → α → β} {k : ℕ} {xs : List α} {b : β}
    (hb : b ∈ mapIdxFrom f k xs) : ∃ i a, a ∈ xs ∧ b = f i a := by
  induction xs generalizing k with
  | nil => exact absurd hb (by simp [mapIdxFrom])
  | cons a l ih =>
    rw [show mapIdxFrom f k (a :: l) = f k a :: mapIdxFrom f (k + 1) l from rfl] at hb
    rcases List.mem_cons.mp hb with h | h
    · exact ⟨k, a, List.mem_cons_self a l, h⟩
    · obtain ⟨i, a2, ha2, hb2⟩ := ih h
      exact ⟨i, a2, List.mem_cons_of_mem a ha2, hb2⟩

theorem simulate_year_age (p : Person) (yw : ℕ) (prm : MpcParams) (ln rd : ℝ) :
    (p.simulate_year yw prm ln rd).age = p.age + 1 := by
  simp [Person.simulate_year]

theorem simulate_year_base (p : Person) (yw : ℕ) (prm : MpcParams) (ln rd : ℝ) :
    (p.simulate_year yw prm ln rd).base_labor_income = p.base_labor_income := by
  simp [Person.simulate_year]

theorem simulate_year_wealth_len (p : Person) (yw : ℕ) (prm : MpcParams) (ln rd : ℝ) :
    (p.simulate_year yw prm ln rd).wealth_history.length
      = p.wealth_history.length + 1 := by
  simp [Person.simulate_year]

theorem simulate_year_labor_len (p : Person) (yw : ℕ) (prm : MpcParams) (ln rd : ℝ) :
    (p.simulate_year yw prm ln rd).labor_income_history.length
      = p.labor_income_history.length + 1 := by
  simp [Person.simulate_year]

theorem bequestAdj_age (d : ℤ) (b : ℝ) (c : Person) :
    (bequestAdj d b c).age = c.age := by
  rw [bequestAdj]; split <;> rfl

theorem bequestAdj_wealth_history (d : ℤ) (b : ℝ) (c : Person) :
    (bequestAdj d b c).wealth_history = c.wealth_history := by
  rw [bequestAdj]; split <;> rfl

theorem bequestAdj_labor_history (d : ℤ) (b : ℝ) (c : Person) :
    (bequestAdj d b c).labor_income_history = c.labor_income_history := by
  rw [bequestAdj]; split <;> rfl

theorem bequestAdj_base (d : ℤ) (b : ℝ) (c : Person) :
    (bequestAdj d b c).base_labor_income = c.base_labor_income := by
  rw [bequestAdj]; split <;> rfl

theorem simulateYears_length (da : List ℤ) (bq : List ℝ) (prm : MpcParams)
    (ns : ℕ → ℕ → ℝ × ℝ) (y : ℕ) (cs : List Person) :
    (simulateYears da bq prm ns y cs).length = cs.length := by
  induction y with
  | zero => rfl
  | succ n ih =>
    rw [show simulateYears da bq prm ns (n + 1) cs
        = yearStep da bq prm ns n (simulateYears da bq prm ns n cs) from rfl]
    rw [yearStep, mapIdxFrom_length, ih]

theorem simulateYears_age (da : List ℤ) (bq : List ℝ) (prm : MpcParams)
    (ns : ℕ → ℕ → ℝ × ℝ) (y : ℕ) (cs : List Person) (i : ℕ)
    (h : i < cs.length) (d : Person) :
    ((simulateYears da bq prm ns y cs).getD i d).age = (cs.getD i d).age + y := by
  induction y with
  | zero => simp [simulateYears]
  | succ n ih =>
    have hlen : i < (simulateYears da bq prm ns n cs).length := by
      rw [simulateYears_length]; exact h
    rw [show simulateYears da bq prm ns (n + 1) cs
        = yearStep da bq prm ns n (simulateYears da bq prm ns n cs) from rfl]
    rw [yearStep, mapIdxFrom_getD _ _ _ i hlen d d]
    rw [Nat.zero_add, simulate_year_age, bequestAdj_age, ih]
    push_cast
    ring

theorem simulateYears_mem (da : List ℤ) (bq : List ℝ) (prm : MpcParams)
    (ns : ℕ → ℕ → ℝ × ℝ) (y : ℕ) (cs : List Person) (c : Person)
    (hc : c ∈ simulateYears da bq prm ns y cs) :
    ∃ c0 ∈ cs,
      c.wealth_history.length = c0.wealth_history.length + y
      ∧ c.labor_income_history.length = c0.labor_income_history.length + y
      ∧ c.base_labor_income = c0.base_labor_income := by
  induction y generalizing c with
  | zero => exact ⟨c, hc, rfl, rfl, rfl⟩
  | succ n ih =>
    rw [show simulateYears da bq prm ns (n + 1) cs
        = yearStep da bq prm ns n (simulateYears da bq prm ns n cs) from rfl,
      yearStep] at hc
    obtain ⟨i, a, ha, hfa⟩ := mapIdxFrom_mem hc
    obtain ⟨c0, hc0, hw, hl, hb⟩ := ih a ha
    refine ⟨c0, hc0, ?_, ?_, ?_⟩
    · rw [hfa, simulate_year_wealth_len, bequestAdj_wealth_history, hw]
      omega
    · rw [hfa, simulate_year_labor_len, bequestAdj_labor_history, hl]
      omega
    · rw [hfa, simulate_year_base, bequestAdj_base, hb]

/- ---------------------------------------------------------------------
Claim theorems.
--------------------------------------------------------------------- -/

/-- C10: a `Person` created with an absent (`none`) parent wealth rank
gets `base_labor_income = BASE_INCOME` exactly; one created with rank `r`
gets `BASE_INCOME * (1 + PARENT_WEALTH_EFFECT * r)`; and in both cases
the field is set once at creation — `simulate_year` never changes it. -/
theorem base_labor_income_at_creation :
    (∀ (a : ℤ) (w : ℝ), (Person.init a w none).base_labor_income = BASE_INCOME)
  ∧ (∀ (a : ℤ) (w r : ℝ), (Person.init a w (some r)).base_labor_income
      = BASE_INCOME * (1 + PARENT_WEALTH_EFFECT * r))
  ∧ (∀ (p : Person) (yw : ℕ) (prm : MpcParams) (ln rd : ℝ),
      (p.simulate_year yw prm ln rd).base_labor_income = p.base_labor_income) := by
  refine ⟨fun a w => rfl, fun a w r => rfl, fun p yw prm ln rd => ?_⟩
  exact simulate_year_base p yw prm ln rd

/-- C7: at creation the wealth history (which contains the initial
endowment) is one entry longer than the labor income history;
`simulate_year` preserves this invariant; and after the 60-year
`run_simulation` every person's wealth history has exactly 61 entries and
labor income history exactly 60. -/
theorem wealth_history_length_invariant :
    (∀ (a : ℤ) (w : ℝ) (pr : Option ℝ),
      (Person.init a w pr).wealth_history.length
        = (Person.init a w pr).labor_income_history.length + 1)
  ∧ (∀ (p : Person) (yw : ℕ) (prm : MpcParams) (ln rd : ℝ),
      p.wealth_history.length = p.labor_income_history.length + 1 →
      (p.simulate_year yw prm ln rd).wealth_history.length
        = (p.simulate_year yw prm ln rd).labor_income_history.length + 1)
  ∧ (∀ (pw : List ℝ) (da : List ℤ) (bs : List ℝ) (ns : ℕ → ℕ → ℝ × ℝ)
      (prm : MpcParams) (c : Person), c ∈ (run_simulation pw da bs ns prm).1 →
      c.wealth_history.length = 61 ∧ c.labor_income_history.length = 60) := by
  refine ⟨fun a w pr => rfl, ?_, ?_⟩
  · intro p yw prm ln rd h
    rw [simulate_year_wealth_len, simulate_year_labor_len, h]
  · intro pw da bs ns prm c hc
    simp only [run_simulation] at hc
    obtain ⟨c0, hc0, hw, hl, _⟩ := simulateYears_mem _ _ _ _ _ _ _ hc
    rw [initialChildren] at hc0
    obtain ⟨r, _, hr⟩ := List.mem_map.mp hc0
    rw [← hr] at hw hl
    rw [show (Person.init CHILD_START_AGE 0 (some r)).wealth_history.length = 1
        from rfl] at hw
    rw [show (Person.init CHILD_START_AGE 0 (some r)).labor_income_history.length = 0
        from rfl] at hl
    exact ⟨by rw [hw], by rw [hl]⟩

/-- Witness for C7: the invariant instantiated at a concrete person, with
the preservation hypothesis discharged concretely. -/
theorem wealth_history_length_invariant_witness :
    (Person.init 25 0 none).wealth_history.length
      = (Person.init 25 0 none).labor_income_history.length + 1
  ∧ ((Person.init 25 0 none).simulate_year 0 defaultMpcParams 1 0).wealth_history.length
      = ((Person.init 25 0 none).simulate_year 0 defaultMpcParams 1 0).labor_income_history.length + 1 :=
  ⟨wealth_history_length_invariant.1 25 0 none,
   wealth_history_length_invariant.2.1 (Person.init 25 0 none) 0 defaultMpcParams 1 0 rfl⟩

/-- C9: during the simulation loop a person's age increases by exactly
one per simulated year, so for a fixed person index the bequest trigger
`child.age == death_ages[i]` can hold in at most one loop year: two
trigger years are equal.  Hence the bequest amount is added to a person's
wealth at most once across the 60-year run. -/
theorem bequest_added_at_most_once
    (pw : List ℝ) (da : List ℤ) (bq : List ℝ) (prm : MpcParams)
    (ns : ℕ → ℕ → ℝ × ℝ) (i y₁ y₂ : ℕ) (d : Person)
    (hi : i < (initialChildren pw).length)
    (hy₁ : y₁ < 60) (hy₂ : y₂ < 60)
    (ht₁ : ((simulateYears da bq prm ns y₁ (initialChildren pw)).getD i d).age
      = da.getD i 0)
    (ht₂ : ((simulateYears da bq prm ns y₂ (initialChildren pw)).getD i d).age
      = da.getD i 0) :
    y₁ = y₂ := by
  rw [simulateYears_age da bq prm ns y₁ (initialChildren pw) i hi d] at ht₁
  rw [simulateYears_age da bq prm ns y₂ (initialChildren pw) i hi d] at ht₂
  omega

/-- Witness for C9: with one person whose death age equals the starting
age, the trigger holds in loop year 0, and the theorem applies. -/
theorem bequest_added_at_most_once_witness :
    0 < (initialChildren [1]).length
  ∧ ((simulateYears [25] [5] defaultMpcParams (fun _ _ => (1, 0)) 0
      (initialChildren [1])).getD 0 (Person.init 0 0 none)).age
      = ([25] : List ℤ).getD 0 0
  ∧ (0 : ℕ) = 0 := by
  have h1 : 0 < (initialChildren [1]).length := by
    simp [initialChildren, rankdata]
  have h2 : ((simulateYears [25] [5] defaultMpcParams (fun _ _ => (1, 0)) 0
      (initialChildren [1])).getD 0 (Person.init 0 0 none)).age
      = ([25] : List ℤ).getD 0 0 := by
    simp [simulateYears, initialChildren, rankdata, Person.init, CHILD_START_AGE]
  exact ⟨h1, h2,
    bequest_added_at_most_once [1] [25] [5] defaultMpcParams (fun _ _ => (1, 0))
      0 0 0 (Person.init 0 0 none) h1 (by norm_num) (by norm_num) h2 h2⟩

open Classical in
theorem simulate_year_consumption (p : Person) (yw : ℕ) (prm : MpcParams)
    (ln rd : ℝ) :
    (p.simulate_year yw prm ln rd).consumption_history.getLast?
      = some (F.minimum
          (calculate_consumptionF
            (F.add (some (p.get_labor_income yw ln)) (p.get_capital_income rd)) prm)
          (F.add (F.add (some (p.get_labor_income yw ln)) (p.get_capital_income rd))
            (if F.isPos p.wealth
             then F.mul p.wealth (some BORROWING_LIMIT_WEALTH_SHARE)
             else some 0))) := by
  simp [Person.simulate_year, List.getLast?_concat]

open Classical in
/-- C4: the consumption recorded by `simulate_year` never exceeds
`total_income + max(wealth, 0) * BORROWING_LIMIT_WEALTH_SHARE`, where
`wealth` is the person's wealth at the start of the year: only positive
wealth grants borrowing capacity, and non-positive wealth grants none.
"Never exceeds" is the float comparison, under which a NaN consumption
(possible in a year of negative total income) does not exceed the cap
either. -/
theorem consumption_never_exceeds_cap (p : Person) (yw : ℕ) (prm : MpcParams)
    (ln rd : ℝ) (w : ℝ) (hw : p.wealth = some w) (c : F)
    (hc : (p.simulate_year yw prm ln rd).consumption_history.getLast? = some c) :
    ¬ F.lt (F.add (F.add (some (p.get_labor_income yw ln)) (p.get_capital_income rd))
        (some (max w 0 * BORROWING_LIMIT_WEALTH_SHARE))) c := by
  rw [simulate_year_consumption, Option.some_inj] at hc
  subst hc
  have hcap : (some (max w 0 * BORROWING_LIMIT_WEALTH_SHARE) : F)
      = (if F.isPos p.wealth
         then F.mul p.wealth (some BORROWING_LIMIT_WEALTH_SHARE)
         else some 0) := by
    rw [hw]
    by_cases hpos : 0 < w
    · rw [if_pos ⟨w, rfl, hpos⟩]
      simp [F.mul, max_eq_left (le_of_lt hpos)]
    · rw [if_neg ?hneg]
      case hneg =>
        rintro ⟨a, haa, hap⟩
        rw [Option.some_inj] at haa
        rw [← haa] at hap
        exact hpos hap
      rw [max_eq_right (le_of_not_lt hpos)]
      rw [zero_mul]
  rw [hcap]
  exact F.not_lt_minimum _ _

open Classical in
/-- Witness for C4: the cap theorem applied to a fresh zero-wealth person
in its first year, with the wealth and recorded-consumption hypotheses
discharged concretely. -/
theorem consumption_never_exceeds_cap_witness :
    (Person.init 25 0 none).wealth = some 0
  ∧ ¬ F.lt (F.add (F.add (some ((Person.init 25 0 none).get_labor_income 0 1))
        ((Person.init 25 0 none).get_capital_income 0))
        (some (max 0 0 * BORROWING_LIMIT_WEALTH_SHARE)))
      (F.minimum
        (calculate_consumptionF
          (F.add (some ((Person.init 25 0 none).get_labor_income 0 1))
            ((Person.init 25 0 none).get_capital_income 0)) defaultMpcParams)
        (F.add (F.add (some ((Person.init 25 0 none).get_labor_income 0 1))
            ((Person.init 25 0 none).get_capital_income 0))
          (if F.isPos (Person.init 25 0 none).wealth
           then F.mul (Person.init 25 0 none).wealth (some BORROWING_LIMIT_WEALTH_SHARE)
           else some 0))) :=
  ⟨rfl, consumption_never_exceeds_cap (Person.init 25 0 none) 0 defaultMpcParams
    1 0 0 rfl _ (simulate_year_consumption (Person.init 25 0 none) 0 defaultMpcParams 1 0)⟩

theorem simulateYears_nil (da : List ℤ) (bq : List ℝ) (prm : MpcParams)
    (ns : ℕ → ℕ → ℝ × ℝ) (y : ℕ) :
    simulateYears da bq prm ns y ([] : List Person) = [] := by
  induction y with
  | zero => rfl
  | succ n ih =>
    rw [show simulateYears da bq prm ns (n + 1) []
        = yearStep da bq prm ns n (simulateYears da bq prm ns n []) from rfl, ih]
    rfl

theorem not_isIntR_point_three : ¬ IsIntR ((-0.7 : ℝ) + 1) := by
  rintro ⟨n, hn⟩
  have h1 : ((-0.7 : ℝ) + 1) = 3 / 10 := by norm_num
  rw [h1] at hn
  have h2 : (3 : ℝ) = (n : ℝ) * 10 := by linarith
  have h3 : (3 : ℤ) = n * 10 := by exact_mod_cast h2
  omega

theorem calculate_consumption_pos_eq (income b ref e : ℝ)
    (hincome : 0 < income) (href : 0 < ref) (he : e ≠ -1) :
    calculate_consumption income b ref e
      = some (b * ref * (income / ref) ^ (e + 1) / (e + 1)) := by
  have hs : 0 < income / ref := div_pos hincome href
  have halpha : e + 1 ≠ 0 := fun h => he (by linarith)
  rw [calculate_consumption, npPower, if_neg (not_lt.mpr (le_of_lt hs)),
    if_neg (fun h => absurd h.1 (ne_of_gt hs))]
  rw [Option.some_bind, if_neg halpha]

theorem calculate_consumption_neg_eq (income b ref e : ℝ)
    (hincome : income < 0) (href : 0 < ref) (hint : ¬ IsIntR (e + 1)) :
    calculate_consumption income b ref e = none := by
  have hs : income / ref < 0 := div_neg_of_neg_of_pos hincome href
  rw [calculate_consumption, npPower, if_pos hs, if_neg hint]
  rfl

/-- C1: contrary to the claim, no invalid configuration is rejected.  At
elasticity -1 `calculate_consumption` divides by `alpha = 0` and the
float result is silently non-finite (`none` in this embedding) — no
domain error is raised; and `run_simulation` performs no validation at
all: called with elasticity -1 and an empty (non-positive size)
population it simply runs and returns empty arrays. -/
theorem no_validation_at_elasticity_neg_one :
    calculate_consumption 35000 0.6 35000 (-1) = none
  ∧ run_simulation [] [] [] (fun _ _ => (1, 0))
      { base_mpc := 0.6, reference_income := 35000, elasticity := -1 }
      = ([], [], []) := by
  constructor
  · rw [calculate_consumption, npPower]
    norm_num
  · rw [run_simulation]
    rw [show initialChildren [] = [] from rfl]
    rw [simulateYears_nil]
    rfl

/-- C3 counterexample: the consumption evaluation used inside
`simulate_year` is not guarded by the 1e-6 floor.  At income -35000 with
the default elasticity -0.7 the scaled income is -1 and
`np.power(-1, 0.3)` is NaN, so the consumption of a year with negative
total income is non-finite, contradicting the claim. -/
theorem consumption_nan_at_negative_income :
    calculate_consumption (-35000) 0.6 35000 (-0.7) = none :=
  calculate_consumption_neg_eq (-35000) 0.6 35000 (-0.7) (by norm_num)
    (by norm_num) not_isIntR_point_three

/-- C3 amended: `calculate_mpc` is guarded by the `max(·, 1e-6)` floor
and returns a (positive) finite real for every income, including zero and
negative; but `calculate_consumption` — the function actually used inside
a simulated year — applies no floor: it is finite for positive income,
while for negative income with non-integer `alpha = elasticity + 1` it is
NaN, so a year with negative total income yields a non-finite consumption. -/
theorem mpc_guarded_consumption_unguarded :
    (∀ income b ref e : ℝ, 0 < b → 0 < calculate_mpc income b ref e)
  ∧ (∀ income b ref e : ℝ, 0 < income → 0 < ref → e ≠ -1 →
      calculate_consumption income b ref e
        = some (b * ref * (income / ref) ^ (e + 1) / (e + 1)))
  ∧ (∀ income b ref e : ℝ, income < 0 → 0 < ref → ¬ IsIntR (e + 1) →
      calculate_consumption income b ref e = none) := by
  refine ⟨?_, ?_, ?_⟩
  · intro income b ref e hb
    rw [calculate_mpc]
    have hmax : (0 : ℝ) < max (income / ref) (1e-6 : ℝ) :=
      lt_of_lt_of_le (by norm_num) (le_max_right _ _)
    exact mul_pos hb (Real.rpow_pos_of_pos hmax e)
  · intro income b ref e h1 h2 h3
    exact calculate_consumption_pos_eq income b ref e h1 h2 h3
  · intro income b ref e h1 h2 h3
    exact calculate_consumption_neg_eq income b ref e h1 h2 h3

/-- Witness for C3 (amended): the three parts at concrete inputs. -/
theorem mpc_guarded_consumption_unguarded_witness :
    0 < calculate_mpc (-5) 0.6 35000 (-0.7)
  ∧ calculate_consumption 35000 0.6 35000 (-0.7)
      = some (0.6 * 35000 * ((35000 : ℝ) / 35000) ^ ((-0.7 : ℝ) + 1) / ((-0.7 : ℝ) + 1))
  ∧ calculate_consumption (-1) 0.6 35000 (-0.7) = none :=
  ⟨mpc_guarded_consumption_unguarded.1 (-5) 0.6 35000 (-0.7) (by norm_num),
   mpc_guarded_consumption_unguarded.2.1 35000 0.6 35000 (-0.7) (by norm_num)
     (by norm_num) (by norm_num),
   mpc_guarded_consumption_unguarded.2.2 (-1) 0.6 35000 (-0.7) (by norm_num)
     (by norm_num) not_isIntR_point_three⟩

/-- C8: for `base_mpc > 0`, `reference_income > 0` and any elasticity
other than -1, consumption is strictly increasing on positive incomes:
for `0 < x < y` both values are finite and `consumption x < consumption y`. -/
theorem consumption_strictly_increasing (b ref e x y : ℝ)
    (hb : 0 < b) (href : 0 < ref) (he : e ≠ -1) (hx : 0 < x) (hxy : x < y) :
    ∃ cx cy : ℝ, calculate_consumption x b ref e = some cx
      ∧ calculate_consumption y b ref e = some cy ∧ cx < cy := by
  have hy : 0 < y := lt_trans hx hxy
  have halpha : e + 1 ≠ 0 := fun h => he (by linarith)
  have hsx : 0 < x / ref := div_pos hx href
  have hsy : 0 < y / ref := div_pos hy href
  have hsxy : x / ref < y / ref := by gcongr
  have hK : 0 < b * ref := mul_pos hb href
  refine ⟨_, _, calculate_consumption_pos_eq x b ref e hx href he,
    calculate_consumption_pos_eq y b ref e hy href he, ?_⟩
  rcases lt_or_gt_of_ne halpha with hneg | hpos
  · have hpow : (y / ref) ^ (e + 1) < (x / ref) ^ (e + 1) := by
      rw [Real.rpow_def_of_pos hsx, Real.rpow_def_of_pos hsy]
      exact Real.exp_lt_exp.mpr
        (mul_lt_mul_of_neg_right (Real.log_lt_log hsx hsxy) hneg)
    have hnum : b * ref * (y / ref) ^ (e + 1) - b * ref * (x / ref) ^ (e + 1) < 0 := by
      nlinarith
    have hkey : 0 < (b * ref * (y / ref) ^ (e + 1)
        - b * ref * (x / ref) ^ (e + 1)) / (e + 1) :=
      div_pos_of_neg_of_neg hnum hneg
    have hexp : (b * ref * (y / ref) ^ (e + 1)
        - b * ref * (x / ref) ^ (e + 1)) / (e + 1)
        = b * ref * (y / ref) ^ (e + 1) / (e + 1)
          - b * ref * (x / ref) ^ (e + 1) / (e + 1) := by ring
    linarith [hkey, hexp.symm.le]
  · have hpow : (x / ref) ^ (e + 1) < (y / ref) ^ (e + 1) :=
      Real.rpow_lt_rpow (le_of_lt hsx) hsxy hpos
    gcongr

/-- Witness for C8: strict monotonicity at concrete inputs. -/
theorem consumption_strictly_increasing_witness :
    ∃ cx cy : ℝ, calculate_consumption 35000 0.6 35000 (-0.7) = some cx
      ∧ calculate_consumption 70000 0.6 35000 (-0.7) = some cy ∧ cx < cy :=
  consumption_strictly_increasing 0.6 35000 (-0.7) 35000 70000 (by norm_num)
    (by norm_num) (by norm_num) (by norm_num) (by norm_num)

/-- C6: `run_simulation`'s bequest ranks are `computeBequestRanks` of the
bequest amounts, and there: every individual with a positive bequest gets
`0.4 + 0.6 * r` with `r` the scipy average rank of the bequest among the
positive bequests divided by their count, `r ∈ (0, 1]` (so the value lies
in [0.4, 1.0]); every individual with a zero bequest gets exactly 0; and
when nobody has a positive bequest the whole array is zero, with no
division performed and no exception. -/
theorem bequest_ranks_spec :
    (∀ (pw : List ℝ) (da : List ℤ) (bs : List ℝ) (ns : ℕ → ℕ → ℝ × ℝ)
      (prm : MpcParams), (run_simulation pw da bs ns prm).2.1
        = computeBequestRanks (bequests_of pw bs))
  ∧ (∀ (bequests : List ℝ) (i : ℕ) (b : ℝ), bequests[i]? = some b → 0 < b →
      ∃ r : ℝ,
        r = rankAvg (bequests.filter fun v => decide (0 < v)) b
            / ((bequests.filter fun v => decide (0 < v)).length : ℝ)
        ∧ 0 < r ∧ r ≤ 1
        ∧ (computeBequestRanks bequests)[i]? = some (0.4 + 0.6 * r)
        ∧ 0.4 ≤ 0.4 + 0.6 * r ∧ 0.4 + 0.6 * r ≤ 1)
  ∧ (∀ (bequests : List ℝ) (i : ℕ), bequests[i]? = some 0 →
      (computeBequestRanks bequests)[i]? = some 0)
  ∧ (∀ bequests : List ℝ, (∀ b ∈ bequests, b ≤ 0) →
      computeBequestRanks bequests = List.replicate bequests.length 0) := by
  refine ⟨fun pw da bs ns prm => rfl, ?_, ?_, ?_⟩
  · intro bequests i b hb hpos
    have hmem : b ∈ bequests := List.getElem?_mem hb
    have hfil : b ∈ bequests.filter fun v => decide (0 < v) :=
      List.mem_filter.mpr ⟨hmem, by simp [hpos]⟩
    have hnpos : 0 < (bequests.filter fun v => decide (0 < v)).length :=
      List.length_pos_of_mem hfil
    have hncast : (0 : ℝ) < ((bequests.filter fun v => decide (0 < v)).length : ℝ) := by
      exact_mod_cast hnpos
    obtain ⟨hr1, hr2⟩ := rankAvg_bounds _ b hfil
    refine ⟨_, rfl, ?_, ?_, ?_, ?_, ?_⟩
    · exact div_pos (lt_of_lt_of_le one_pos hr1) hncast
    · rw [div_le_one hncast]
      exact hr2
    · rw [computeBequestRanks]
      rw [if_pos hnpos, List.getElem?_map, hb]
      rw [Option.map_some']
      rw [if_pos hpos]
    · have h0 : 0 < rankAvg (bequests.filter fun v => decide (0 < v)) b
          / ((bequests.filter fun v => decide (0 < v)).length : ℝ) :=
        div_pos (lt_of_lt_of_le one_pos hr1) hncast
      linarith
    · have hle1 : rankAvg (bequests.filter fun v => decide (0 < v)) b
          / ((bequests.filter fun v => decide (0 < v)).length : ℝ) ≤ 1 := by
        rw [div_le_one hncast]; exact hr2
      linarith
  · intro bequests i hb
    rw [computeBequestRanks]
    by_cases hnpos : 0 < (bequests.filter fun v => decide (0 < v)).length
    · rw [if_pos hnpos, List.getElem?_map, hb, Option.map_some']
      rw [if_neg (lt_irrefl 0)]
    · rw [if_neg hnpos, List.getElem?_map, hb, Option.map_some']
  · intro bequests hall
    have hfil : (bequests.filter fun v => decide (0 < v)) = [] := by
      rw [List.filter_eq_nil]
      intro a ha
      simp only [decide_eq_true_eq]
      exact not_lt.mpr (hall a ha)
    rw [computeBequestRanks]
    rw [hfil]
    rw [if_neg (by simp : ¬ 0 < ([] : List ℝ).length)]
    exact List.map_const' bequests 0

/-- Witness for C6: the three parts at concrete bequest arrays. -/
theorem bequest_ranks_spec_witness :
    (∃ r : ℝ,
        r = rankAvg (([2, 0] : List ℝ).filter fun v => decide (0 < v)) 2
            / ((([2, 0] : List ℝ).filter fun v => decide (0 < v)).length : ℝ)
        ∧ 0 < r ∧ r ≤ 1
        ∧ (computeBequestRanks [2, 0])[0]? = some (0.4 + 0.6 * r)
        ∧ 0.4 ≤ 0.4 + 0.6 * r ∧ 0.4 + 0.6 * r ≤ 1)
  ∧ (computeBequestRanks [2, 0])[1]? = some 0
  ∧ computeBequestRanks [0] = List.replicate ([0] : List ℝ).length 0 :=
  ⟨bequest_ranks_spec.2.1 [2, 0] 0 2 rfl (by norm_num),
   bequest_ranks_spec.2.2.1 [2, 0] 1 rfl,
   bequest_ranks_spec.2.2.2 [0] (by intro b hb; simp at hb; exact le_of_eq hb)⟩

theorem F.le_some_iff (a b : ℝ) : F.le (some a) (some b) ↔ a ≤ b := by
  simp [F.le]

theorem F.lt_some_iff (a b : ℝ) : F.lt (some a) (some b) ↔ a < b := by
  simp [F.lt]

/-- C2 counterexample: a bequest rank equal to 1.0 exactly (the top
recipient always has rank `0.4 + 0.6 * 1 = 1.0`) satisfies no bin mask:
with two bins, both means come out empty (`none`), so the individual is
counted in zero bins, not exactly one. -/
theorem rank_one_falls_in_no_bin :
    (calculate_rank_statistics [some 1] [some (1 / 2)] 2).2.1 = [none, none] := by
  simp only [calculate_rank_statistics]
  norm_num [List.range_succ, binMask, F.le_some_iff, F.lt_some_iff,
    List.filter_cons, decide_eq_true_eq]

/-- C2 amended: every bin of `calculate_rank_statistics`, the last one
included, selects the left-closed right-open interval
`[bins i, bins (i+1))`: a bequest rank in `[0, 1)` lies in exactly one of
the `n_bins` bins, while a rank equal to 1.0 exactly lies in none of
them. -/
theorem binMask_partition (n : ℕ) (r : ℝ) (hn : 0 < n) (h0 : 0 ≤ r) (h1 : r < 1) :
    (∃ i, i < n ∧ binMask n i (some r) ∧ ∀ j, j < n → binMask n j (some r) → j = i)
  ∧ (∀ j, j < n → ¬ binMask n j (some 1)) := by
  have hncast : (0 : ℝ) < (n : ℝ) := by exact_mod_cast hn
  constructor
  · refine ⟨⌊(n : ℝ) * r⌋₊, ?_, ?_, ?_⟩
    · rw [Nat.floor_lt (by positivity)]
      calc (n : ℝ) * r < (n : ℝ) * 1 := by
            exact mul_lt_mul_of_pos_left h1 hncast
        _ = (n : ℝ) := mul_one _
    · constructor
      · rw [F.le_some_iff, div_le_iff hncast]
        calc (⌊(n : ℝ) * r⌋₊ : ℝ) ≤ (n : ℝ) * r := Nat.floor_le (by positivity)
          _ = r * n := mul_comm _ _
      · rw [F.lt_some_iff, lt_div_iff hncast]
        push_cast
        calc r * (n : ℝ) = (n : ℝ) * r := mul_comm _ _
          _ < ⌊(n : ℝ) * r⌋₊ + 1 := Nat.lt_floor_add_one _
    · intro j hj hmask
      obtain ⟨hle, hlt⟩ := hmask
      rw [F.le_some_iff, div_le_iff hncast] at hle
      rw [F.lt_some_iff, lt_div_iff hncast] at hlt
      push_cast at hlt
      symm
      rw [Nat.floor_eq_iff (by positivity)]
      constructor
      · calc (j : ℝ) ≤ r * n := hle
          _ = (n : ℝ) * r := mul_comm _ _
      · calc (n : ℝ) * r = r * n := mul_comm _ _
          _ < (j : ℝ) + 1 := hlt
  · intro j hj hmask
    obtain ⟨hle, hlt⟩ := hmask
    rw [F.lt_some_iff, lt_div_iff hncast] at hlt
    rw [one_mul] at hlt
    have hjn : (n : ℝ) < (j : ℝ) + 1 := by exact_mod_cast hlt
    have : n < j + 1 := by exact_mod_cast hjn
    omega

/-- Witness for C2 (amended): two bins, rank 1/4 in exactly one bin,
rank 1.0 in none. -/
theorem binMask_partition_witness :
    (∃ i, i < 2 ∧ binMask 2 i (some (1 / 4))
      ∧ ∀ j, j < 2 → binMask 2 j (some (1 / 4)) → j = i)
  ∧ (∀ j, j < 2 → ¬ binMask 2 j (some 1)) :=
  binMask_partition 2 (1 / 4) (by norm_num) (by norm_num) (by norm_num)

theorem initialChildren_length (pw : List ℝ) :
    (initialChildren pw).length = pw.length := by
  rw [initialChildren, List.length_map, List.length_map, rankdata, List.length_map]

theorem computeBequestRanks_length (l : List ℝ) :
    (computeBequestRanks l).length = l.length := by
  rw [computeBequestRanks]
  split <;> rw [List.length_map]

theorem bequests_of_length (pw bs : List ℝ) (hbs : bs.length = pw.length) :
    (bequests_of pw bs).length = pw.length := by
  rw [bequests_of, List.length_zipWith, List.length_zip, List.length_map,
    rankdata, List.length_map, hbs]
  omega

theorem computeWealthRanks_length (fw : List F) :
    (computeWealthRanks fw).length = fw.length := by
  rw [computeWealthRanks, List.length_map, rankdataF, List.length_map]

theorem computeBequestRanks_range (l : List ℝ) :
    ∀ r ∈ computeBequestRanks l, 0 ≤ r ∧ r ≤ 1 := by
  intro r hr
  rw [computeBequestRanks] at hr
  by_cases hnpos : 0 < (l.filter fun v => decide (0 < v)).length
  · rw [if_pos hnpos] at hr
    obtain ⟨b, hb, hfb⟩ := List.mem_map.mp hr
    by_cases hbpos : 0 < b
    · rw [if_pos hbpos] at hfb
      have hbfil : b ∈ l.filter fun v => decide (0 < v) :=
        List.mem_filter.mpr ⟨hb, by simp [hbpos]⟩
      obtain ⟨h1, h2⟩ := rankAvg_bounds _ b hbfil
      have hncast : (0 : ℝ) < ((l.filter fun v => decide (0 < v)).length : ℝ) := by
        exact_mod_cast hnpos
      have hr0 : 0 < rankAvg (l.filter fun v => decide (0 < v)) b
          / ((l.filter fun v => decide (0 < v)).length : ℝ) :=
        div_pos (lt_of_lt_of_le one_pos h1) hncast
      have hr1 : rankAvg (l.filter fun v => decide (0 < v)) b
          / ((l.filter fun v => decide (0 < v)).length : ℝ) ≤ 1 := by
        rw [div_le_one hncast]
        exact h2
      rw [← hfb]
      constructor <;> linarith
    · rw [if_neg hbpos] at hfb
      rw [← hfb]
      norm_num
  · rw [if_neg hnpos] at hr
    obtain ⟨b, hb, hfb⟩ := List.mem_map.mp hr
    rw [← hfb]
    norm_num

theorem computeWealthRanks_range (fw : List F) (h2 : 2 ≤ fw.length) :
    ∀ x ∈ computeWealthRanks fw, ∃ v, x = some v ∧ 0 ≤ v ∧ v ≤ 1 := by
  intro x hx
  have hpos : (0 : ℝ) < (fw.length : ℝ) - 1 := by
    have : (2 : ℝ) ≤ (fw.length : ℝ) := by exact_mod_cast h2
    linarith
  rw [computeWealthRanks] at hx
  obtain ⟨rk, hrk, hfx⟩ := List.mem_map.mp hx
  rw [rankdataF] at hrk
  obtain ⟨w, hw, hfw⟩ := List.mem_map.mp hrk
  rw [if_neg (ne_of_gt hpos)] at hfx
  obtain ⟨hb1, hb2⟩ := rankAvgF_bounds fw w hw
  rw [hfw] at hb1 hb2
  refine ⟨(rk - 1) / ((fw.length : ℝ) - 1), hfx.symm, ?_, ?_⟩
  · apply div_nonneg _ (le_of_lt hpos)
    linarith
  · rw [div_le_one hpos]
    linarith

theorem computeWealthRanks_singleton (w : F) : computeWealthRanks [w] = [none] := by
  rw [computeWealthRanks, rankdataF]
  simp only [List.map_cons, List.map_nil]
  rw [if_pos (by simp : ((([w] : List F).length : ℝ) - 1 = 0))]

/-- C5 counterexample: for population size 1 the wealth rank formula
divides by `n_people - 1 = 0`, the float division `0 / 0` is NaN, and the
returned wealth-rank array is `[NaN]` — not a value in [0, 1] — so the
claim fails for `P = 1` although the lengths are right. -/
theorem wealth_rank_nan_for_single_person :
    (run_simulation [1] [30] [1] (fun _ _ => (1, 0)) defaultMpcParams).2.2
      = [none] := by
  simp only [run_simulation]
  have hlen : (simulateYears [30] (bequests_of [1] [1]) defaultMpcParams
      (fun _ _ => (1, 0)) 60 (initialChildren [1])).length = 1 := by
    rw [simulateYears_length, initialChildren_length]
    rfl
  obtain ⟨c, hc⟩ := List.length_eq_one.mp hlen
  rw [hc]
  simp only [List.map_cons, List.map_nil]
  exact computeWealthRanks_singleton _

/-- C5 amended: for every population of size `P`, of any positive size
(with one bequest share drawn per person), `run_simulation` returns `P`
persons and two rank arrays of length `P`, and every bequest rank lies in
[0, 1]; the wealth ranks are finite values in [0, 1] only when `P ≥ 2`.
(For `P = 1` the single wealth rank is NaN — see the counterexample.) -/
theorem run_simulation_shapes (pw : List ℝ) (da : List ℤ) (bs : List ℝ)
    (ns : ℕ → ℕ → ℝ × ℝ) (prm : MpcParams)
    (hbs : bs.length = pw.length) :
    (run_simulation pw da bs ns prm).1.length = pw.length
  ∧ (run_simulation pw da bs ns prm).2.1.length = pw.length
  ∧ (run_simulation pw da bs ns prm).2.2.length = pw.length
  ∧ (∀ r ∈ (run_simulation pw da bs ns prm).2.1, 0 ≤ r ∧ r ≤ 1)
  ∧ (2 ≤ pw.length →
      ∀ x ∈ (run_simulation pw da bs ns prm).2.2, ∃ v, x = some v ∧ 0 ≤ v ∧ v ≤ 1) := by
  have hchild : (simulateYears da (bequests_of pw bs) prm ns 60
      (initialChildren pw)).length = pw.length := by
    rw [simulateYears_length, initialChildren_length]
  refine ⟨?_, ?_, ?_, ?_, ?_⟩
  · simp only [run_simulation]
    exact hchild
  · simp only [run_simulation]
    rw [computeBequestRanks_length]
    exact bequests_of_length pw bs hbs
  · simp only [run_simulation]
    rw [computeWealthRanks_length, List.length_map]
    exact hchild
  · simp only [run_simulation]
    exact computeBequestRanks_range _
  · intro h2
    simp only [run_simulation]
    apply computeWealthRanks_range
    rw [List.length_map, hchild]
    exact h2

/-- Witness for C5 (amended): a two-person run has the claimed shapes and
rank ranges, and the length conjuncts also hold at the single-person run
(where only the wealth ranks degenerate). -/
theorem run_simulation_shapes_witness :
    ((run_simulation [1, 2] [30, 31] [1, 1] (fun _ _ => (1, 0))
      defaultMpcParams).1.length = ([1, 2] : List ℝ).length
  ∧ (run_simulation [1, 2] [30, 31] [1, 1] (fun _ _ => (1, 0))
      defaultMpcParams).2.1.length = ([1, 2] : List ℝ).length
  ∧ (run_simulation [1, 2] [30, 31] [1, 1] (fun _ _ => (1, 0))
      defaultMpcParams).2.2.length = ([1, 2] : List ℝ).length
  ∧ (∀ r ∈ (run_simulation [1, 2] [30, 31] [1, 1] (fun _ _ => (1, 0))
      defaultMpcParams).2.1, 0 ≤ r ∧ r ≤ 1)
  ∧ (∀ x ∈ (run_simulation [1, 2] [30, 31] [1, 1] (fun _ _ => (1, 0))
      defaultMpcParams).2.2, ∃ v, x = some v ∧ 0 ≤ v ∧ v ≤ 1))
  ∧ (run_simulation [1] [30] [1] (fun _ _ => (1, 0))
      defaultMpcParams).2.1.length = ([1] : List ℝ).length := by
  obtain ⟨h1, h2, h3, h4, h5⟩ :=
    run_simulation_shapes [1, 2] [30, 31] [1, 1] (fun _ _ => (1, 0))
      defaultMpcParams rfl
  exact ⟨⟨h1, h2, h3, h4, h5 (by norm_num)⟩,
    (run_simulation_shapes [1] [30] [1] (fun _ _ => (1, 0))
      defaultMpcParams rfl).2.1⟩
